import Mathlib

/-!
Verification development for the `hiffy` HIF-interpreter task
(`src/task/hiffy/src/main.rs`) and the `sp_measure` flash-integrity task
(`src/task/sp_measure/src/main.rs`) of the Hubris repository.

The hiffy task's main loop is embedded as a step function over an explicit
state record.  The external HIF engine (`hif::execute`, an external crate,
out of scope per the spec) is modelled as an oracle parameter: a function
from the invocation index and the current mutable buffers to the buffers it
leaves behind and its `Result`.  Kicks arriving from the host during the
sleep window of an iteration are an explicit input of the step.
-/

set_option maxRecDepth 8192

namespace Hiffy

/-- Modulus of the 32-bit wrapping atomics (`AtomicU32` with `fetch_add` /
`fetch_sub`, which wrap on overflow). -/
def U32MOD : Nat := 2 ^ 32

/-- Failure descriptor produced by the external engine (`hif::Failure`).
The engine is out of scope; the descriptor is opaque to this task, so it is
modelled as an opaque value with decidable equality. -/
abbrev Failure := Nat

/-- HIF opcode (`hif::Op`).  Opaque to this task: the trace hook receives it
and passes it to the trace sink unexamined. -/
abbrev Op := Nat

/-- The three mutable buffers handed to the engine on every invocation:
`stack : [Option<u32>; 32]`, `HIFFY_RSTACK : [u8; 2048]`, and
`scratch : [u8; 256]` (main.rs lines 64-66, 87-88, 126). -/
structure Buffers where
  stack : List (Option Nat)
  rstack : List Nat
  scratch : List Nat
deriving Repr, DecidableEq

/-- The buffer contents established by the initializers that run once:
`[None; 32]`, `[0; 2048]`, `[0u8; 256]`. -/
def initBuffers : Buffers :=
  { stack := List.replicate 32 none
    rstack := List.replicate 2048 0
    scratch := List.replicate 256 0 }

/-- Oracle model of the external engine entry point
`execute(text, HIFFY_FUNCS, data, &mut stack, &mut rstack, &mut scratch, check)`:
given the invocation index and the buffers as the task passes them, it
returns the buffers as it leaves them and its outcome. -/
abbrev Engine := Nat → Buffers → Buffers × Except Failure Unit

/-- State of the hiffy task visible in `main`: the four `AtomicU32` mailbox
scalars (`HIFFY_REQUESTS`, `HIFFY_ERRORS`, `HIFFY_KICK`, `HIFFY_READY`), the
last-failure slot `HIFFY_FAILURE`, the local scheduler variables `sleep_ms`
and `sleeps`, the engine buffers, and an instrumentation counter recording
how many times the engine has been invoked. -/
structure HiffyState where
  requests : Nat
  errors : Nat
  kick : Nat
  ready : Nat
  sleep_ms : Nat
  sleeps : Nat
  failure : Option Failure
  bufs : Buffers
  invocations : Nat
deriving Repr, DecidableEq

/-- State at the top of `main` (lines 85-88): counters zero, no failure,
`sleep_ms = 250`, `sleeps = 0`, freshly initialized buffers. -/
def initState : HiffyState :=
  { requests := 0, errors := 0, kick := 0, ready := 0
    sleep_ms := 250, sleeps := 0, failure := none
    bufs := initBuffers, invocations := 0 }

/-- Model of `HIFFY_READY.fetch_add(1, SeqCst)` (line 100), entering the sleep. -/
def markReady (s : HiffyState) : HiffyState :=
  { s with ready := (s.ready + 1) % U32MOD }

/-- Kicks the host delivers (its own `fetch_add`s on `HIFFY_KICK`) while the
task is suspended in `hl::sleep_for(sleep_ms)` (line 101). -/
def hostKicks (arrive : Nat) (s : HiffyState) : HiffyState :=
  { s with kick := (s.kick + arrive) % U32MOD }

/-- Model of `HIFFY_READY.fetch_sub(1, SeqCst)` (line 102), wrapping subtraction. -/
def unmarkReady (s : HiffyState) : HiffyState :=
  { s with ready := (s.ready + (U32MOD - 1)) % U32MOD }

/-- The value `HIFFY_READY` holds while the task is suspended in
`hl::sleep_for` (between lines 100 and 102) of an iteration beginning in
state `s`. -/
def readyDuringSleep (s : HiffyState) : Nat := (markReady s).ready

/-- The idle branch (lines 104-114): `HIFFY_KICK` was observed zero, so
increment `sleeps`; on the 10th consecutive idle tick back the interval off
to `min(sleep_ms * 10, 250)` and reset `sleeps`, then `continue`. -/
def idlePath (s : HiffyState) : HiffyState :=
  if s.sleeps + 1 = 10 then
    { s with sleep_ms := min (s.sleep_ms * 10) 250, sleeps := 0 }
  else
    { s with sleeps := s.sleeps + 1 }

/-- The active branch (lines 120-156): `HIFFY_KICK.fetch_sub(1)`,
`sleep_ms = 1`, `sleeps = 0`, run the engine once on the current buffers,
then record the outcome: on `Ok` bump `HIFFY_REQUESTS`; on `Err(failure)`
bump `HIFFY_ERRORS` and overwrite `HIFFY_FAILURE`. -/
def activePath (eng : Engine) (s : HiffyState) : HiffyState :=
  let s1 : HiffyState :=
    { s with kick := (s.kick + (U32MOD - 1)) % U32MOD, sleep_ms := 1, sleeps := 0 }
  let r := eng s.invocations s.bufs
  let s2 : HiffyState := { s1 with bufs := r.1, invocations := s1.invocations + 1 }
  match r.2 with
  | Except.ok _ => { s2 with requests := (s2.requests + 1) % U32MOD }
  | Except.error f => { s2 with errors := (s2.errors + 1) % U32MOD, failure := some f }

/-- One full iteration of the `loop` in `main` (lines 99-157): mark ready,
sleep (during which `arrive` kicks are delivered), unmark ready, then branch
on the observed value of `HIFFY_KICK`. -/
def step (eng : Engine) (arrive : Nat) (s : HiffyState) : HiffyState :=
  let s1 := unmarkReady (hostKicks arrive (markReady s))
  if s1.kick = 0 then idlePath s1 else activePath eng s1

/-- Run the loop for one iteration per entry of `arrivals`, the entry giving
the number of kicks the host delivers during that iteration's sleep. -/
def run (eng : Engine) (arrivals : List Nat) (s : HiffyState) : HiffyState :=
  match arrivals with
  | [] => s
  | a :: rest => run eng rest (step eng a s)

/-- The state right after a kick has been processed, as far as the scheduler
variables go: `sleep_ms = 1`, `sleeps = 0`, no pending kicks.  Starting point
of the idle backoff sequence. -/
def idleStart : HiffyState := { initState with sleep_ms := 1 }

/-- The state after `n` fully idle iterations (no kicks at all) from
`idleStart`. -/
def idleN (eng : Engine) (n : Nat) : HiffyState :=
  run eng (List.replicate n 0) idleStart

/-- The per-step trace hook `check` built at lines 128-131: it calls the
board trace sink `trace_execute(offset, *op)` (modelled by returning the
traced pair) and then returns `Ok(())` unconditionally. -/
def check (offset : Nat) (op : Op) : (Nat × Op) × Except Failure Unit :=
  ((offset, op), Except.ok ())

/-- An engine that always succeeds and leaves the buffers as given. -/
def engOk : Engine := fun _ b => (b, Except.ok ())

/-- An engine that always fails with descriptor 42, leaving the buffers. -/
def engErr : Engine := fun _ b => (b, Except.error 42)

/-- An engine that succeeds but leaves a mark in the operand stack. -/
def engMark : Engine := fun _ b =>
  ({ b with stack := List.replicate 32 (some 7) }, Except.ok ())

end Hiffy


/-!
Embedding of the `sp_measure` flash-integrity task
(`src/task/sp_measure/src/main.rs` and the constants its build script
`src/task/sp_measure/build.rs` writes into `expected.rs`).

The `sp_ctrl` debug-link driver is an external collaborator; it is modelled
as an oracle giving the result of the n-th `setup()`, n-th
`read_transaction_start(..)` and n-th `read_transaction(..)` call.  The
infinite `loop {}` statements of the source are modelled by an explicit
`hangs` outcome, and the unbounded retry loops by fuel; exhausting the fuel
is reported as a separate outcome, never conflated with the source's
behavior.  The SHA-256 state is modelled by the byte sequence fed to
`sha.update` (the hash input), since the hash function itself is external.
-/

namespace SpMeasure

/-- Source: `const READ_SIZE: usize = 256` (main.rs line 13). -/
def READ_SIZE : Nat := 256

/-- Source: `const TRANSACTION_SIZE: u32 = 1024` (main.rs line 15). -/
def TRANSACTION_SIZE : Nat := 1024

/-- Source: `const FLASH_START: u32 = 0x0800_0000` (generated by build.rs). -/
def FLASH_START : Nat := 0x08000000

/-- Source: `const TEST_SIZE: usize = 0x1_0000` (build.rs line 14). -/
def TEST_SIZE : Nat := 0x10000

/-- Source: `const FLASH_END: u32 = FLASH_START + TEST_SIZE` (generated by build.rs). -/
def FLASH_END : Nat := FLASH_START + TEST_SIZE

/-- Outcome of `cmp` (main.rs lines 39-51).  `hangs` models the `loop {}`
taken when the two slices have different lengths; `found i a b` models
`Some((i, a[i], b[i]))`; `eq` models `None`. -/
inductive CmpOut where
  | hangs : CmpOut
  | found : Nat → Nat → Nat → CmpOut
  | eq : CmpOut
deriving Repr, DecidableEq

/-- The scan of `for i in 0..a.len() { if a[i] != b[i] { return Some(..) } }`:
first index at which the lists differ, with the two differing bytes. -/
def firstDiff : List Nat → List Nat → Option (Nat × Nat × Nat)
  | [], _ => none
  | _, [] => none
  | x :: xs, y :: ys =>
      if x ≠ y then some (0, x, y)
      else (firstDiff xs ys).map (fun p => (p.1 + 1, p.2.1, p.2.2))

/-- Source: `fn cmp(a: &[u8], b: &[u8]) -> Option<(usize, u8, u8)>`
(main.rs lines 39-51): hang on length mismatch, else return the first
difference, else `None`. -/
def cmp (a b : List Nat) : CmpOut :=
  if a.length ≠ b.length then CmpOut.hangs
  else
    match firstDiff a b with
    | some p => CmpOut.found p.1 p.2.1 p.2.2
    | none => CmpOut.eq

/-- Oracle model of the `sp_ctrl` driver: results of the n-th call of each
operation.  `readRes n = none` models `Err(_)` from `read_transaction`;
`some bytes` models `Ok` having filled `data` with `bytes`. -/
structure Driver where
  setupOk : Nat → Bool
  startOk : Nat → Bool
  readRes : Nat → Option (List Nat)

/-- Mutable state threaded through `main`: the error counter, the number of
driver calls of each kind made so far, and the bytes fed to `sha.update`. -/
structure MState where
  errCnt : Nat
  nSetup : Nat
  nStart : Nat
  nRead : Nat
  hashed : List Nat
deriving Repr, DecidableEq

/-- Model of `sp_ctrl.setup()`: consume one setup result. -/
def callSetup (d : Driver) (s : MState) : Bool × MState :=
  (d.setupOk s.nSetup, { s with nSetup := s.nSetup + 1 })

/-- Model of `sp_ctrl.read_transaction_start(..)`: consume one start result. -/
def callStart (d : Driver) (s : MState) : Bool × MState :=
  (d.startOk s.nStart, { s with nStart := s.nStart + 1 })

/-- Model of `sp_ctrl.read_transaction(&mut data)`: consume one read result. -/
def callRead (d : Driver) (s : MState) : Option (List Nat) × MState :=
  (d.readRes s.nRead, { s with nRead := s.nRead + 1 })

/-- The retry loop around `read_transaction_start(addr, addr + TRANSACTION_SIZE)`
(main.rs lines 72-81): on `Err`, `err_cnt += 1`, call `setup()` discarding
its result, and retry; on `Ok`, break.  `none` means the fuel ran out. -/
def startLoop (d : Driver) : Nat → MState → Option MState
  | 0, _ => none
  | fuel + 1, s =>
      let r := callStart d s
      if r.1 then some r.2
      else
        let s1 := { r.2 with errCnt := r.2.errCnt + 1 }
        let r2 := callSetup d s1
        startLoop d fuel r2.2

/-- The recovery loop inside the `read_transaction` error arm
(main.rs lines 90-103): retry `setup()` until it succeeds, then
`err_cnt += 1` and try `read_transaction_start(addr, FLASH_END)`; on its
`Err`, start over; on `Ok`, break. -/
def recoverLoop (d : Driver) : Nat → MState → Option MState
  | 0, _ => none
  | fuel + 1, s =>
      let r := callSetup d s
      if r.1 then
        let s1 := { r.2 with errCnt := r.2.errCnt + 1 }
        let r2 := callStart d s1
        if r2.1 then some r2.2
        else recoverLoop d fuel r2.2
      else recoverLoop d fuel r.2

/-- The loop around `read_transaction(&mut data)` (main.rs lines 85-107):
on `Ok`, break with the bytes read; on `Err`, run the recovery loop and
retry the read. -/
def readLoop (d : Driver) : Nat → MState → Option (List Nat × MState)
  | 0, _ => none
  | fuel + 1, s =>
      let r := callRead d s
      match r.1 with
      | some bytes => some (bytes, r.2)
      | none =>
          match recoverLoop d fuel r.2 with
          | none => none
          | some s1 => readLoop d fuel s1

/-- Result of one pass over the flash region.  `hangs e` records the value
of `err_cnt` at the moment an infinite `loop {}` is reached; `fuelOut`
means the modelling fuel was exhausted; `done h e` is normal completion
with hash input `h` and error count `e`. -/
inductive MOut where
  | hangs : Nat → MOut
  | fuelOut : MOut
  | done : List Nat → Nat → MOut
deriving Repr, DecidableEq

/-- The expected 256-byte chunk starting at chunk index `i`:
`EXPECTED_BYTES[bit..(bit + READ_SIZE)]` with `bit = i * READ_SIZE`.
The contents of `EXPECTED_BYTES` are embedded at build time, so they are a
parameter `expected` giving the byte at each offset. -/
def chunkAt (expected : Nat → Nat) (i : Nat) : List Nat :=
  (List.range READ_SIZE).map (fun j => expected (i * READ_SIZE + j))

/-- The chunk loop `for (i, addr) in (FLASH_START..FLASH_END).step_by(READ_SIZE).enumerate()`
(main.rs lines 69-120), with `n` chunks remaining and `i` the current chunk
index (so `addr = FLASH_START + i * READ_SIZE`): start a transaction at each
transaction boundary, read one chunk (with retries), compare it against the
expected bytes — a mismatch (or the `cmp` length hang) reaches a `loop {}` —
then feed it to the hash and continue. -/
def chunksGo (d : Driver) (expected : Nat → Nat) (fuel : Nat) :
    Nat → Nat → MState → MOut
  | 0, _, s => MOut.done s.hashed s.errCnt
  | n + 1, i, s =>
      let addr := FLASH_START + i * READ_SIZE
      let s1opt := if addr % TRANSACTION_SIZE = 0 then startLoop d fuel s else some s
      match s1opt with
      | none => MOut.fuelOut
      | some s1 =>
          match readLoop d fuel s1 with
          | none => MOut.fuelOut
          | some (bytes, s2) =>
              match cmp bytes (chunkAt expected i) with
              | CmpOut.eq =>
                  chunksGo d expected fuel n (i + 1)
                    { s2 with hashed := s2.hashed ++ bytes }
              | _ => MOut.hangs s2.errCnt

/-- One pass of `main`'s outer loop (main.rs lines 56-132), starting from
error count `e0` (the `err_cnt` variable lives outside the outer loop; it is
`0` on the first pass): `setup()` — whose failure reaches the bare `loop {}`
at line 61, with no retry and no error-count increment — then the chunk loop
over the whole region. -/
def measureOnce (d : Driver) (expected : Nat → Nat) (fuel : Nat) (e0 : Nat) : MOut :=
  let s0 : MState := { errCnt := e0, nSetup := 0, nStart := 0, nRead := 0, hashed := [] }
  let r := callSetup d s0
  if r.1 then chunksGo d expected fuel (TEST_SIZE / READ_SIZE) 0 r.2
  else MOut.hangs r.2.errCnt

/-- The expected bytes of chunks `i, i+1, ..., i+n-1`, concatenated. -/
def regionChunks (expected : Nat → Nat) : Nat → Nat → List Nat
  | _, 0 => []
  | i, n + 1 => chunkAt expected i ++ regionChunks expected (i + 1) n

/-- A driver on which every operation succeeds and the n-th read returns the
n-th expected chunk. -/
def cleanDriver (expected : Nat → Nat) : Driver :=
  { setupOk := fun _ => true
    startOk := fun _ => true
    readRes := fun n => some (chunkAt expected n) }

/-- A driver whose very first `setup()` fails. -/
def badSetupDriver : Driver :=
  { setupOk := fun _ => false
    startOk := fun _ => true
    readRes := fun n => some (chunkAt (fun _ => 0) n) }

/-- A driver whose first `read_transaction_start` fails and whose later ones
succeed. -/
def flakyStartDriver : Driver :=
  { setupOk := fun _ => true
    startOk := fun n => if n = 0 then false else true
    readRes := fun n => some (chunkAt (fun _ => 0) n) }

/-- The initial `MState` of a pass with error count zero. -/
def mInit : MState :=
  { errCnt := 0, nSetup := 0, nStart := 0, nRead := 0, hashed := [] }

/-- A driver whose first `read_transaction` fails and whose later reads
return a fixed chunk. -/
def flakyReadDriver : Driver :=
  { setupOk := fun _ => true
    startOk := fun _ => true
    readRes := fun n => if n = 0 then none else some [1, 2] }

/-- Index of the first `read_transaction` call belonging to chunk `i`, when
chunk `m` suffers `fails m` read errors before its successful read: each
earlier chunk consumed its failures plus one success. -/
def readIx (fails : Nat → Nat) : Nat → Nat
  | 0 => 0
  | i + 1 => readIx fails i + fails i + 1

/-- Total number of read errors over chunks `i, i+1, ..., i+n-1`. -/
def totalFails (fails : Nat → Nat) : Nat → Nat → Nat
  | _, 0 => 0
  | i, n + 1 => fails i + totalFails fails (i + 1) n

end SpMeasure

/-! ## Helper lemmas -/

namespace Hiffy

/-! ### Helper lemmas about the hiffy step function -/

theorem wake_fields (a : Nat) (s : HiffyState) :
    unmarkReady (hostKicks a (markReady s)) =
      { s with kick := (s.kick + a) % U32MOD,
               ready := ((s.ready + 1) % U32MOD + (U32MOD - 1)) % U32MOD } := by
  simp [unmarkReady, hostKicks, markReady]

theorem ready_net (r : Nat) (h : r < U32MOD) :
    ((r + 1) % U32MOD + (U32MOD - 1)) % U32MOD = r := by
  simp only [U32MOD] at *
  omega

theorem wrap_sub_one (k : Nat) (h0 : 0 < k) (h : k < U32MOD) :
    (k + (U32MOD - 1)) % U32MOD = k - 1 := by
  simp only [U32MOD] at *
  omega

/-- Shape of an idle iteration: when the kick counter reads zero after the
sleep, the step is the idle branch. -/
theorem step_eq_idle (eng : Engine) (a : Nat) (s : HiffyState)
    (h : (s.kick + a) % U32MOD = 0) :
    step eng a s = idlePath (unmarkReady (hostKicks a (markReady s))) := by
  rw [step]
  rw [wake_fields a s]
  simp [h]

/-- Shape of an active iteration: when the kick counter reads nonzero after
the sleep, the step is the active branch. -/
theorem step_eq_active (eng : Engine) (a : Nat) (s : HiffyState)
    (h : (s.kick + a) % U32MOD ≠ 0) :
    step eng a s = activePath eng (unmarkReady (hostKicks a (markReady s))) := by
  rw [step]
  rw [wake_fields a s]
  simp [h]

theorem idlePath_fields (s : HiffyState) :
    idlePath s =
      { s with sleep_ms := if s.sleeps + 1 = 10 then min (s.sleep_ms * 10) 250 else s.sleep_ms,
               sleeps := if s.sleeps + 1 = 10 then 0 else s.sleeps + 1 } := by
  rw [idlePath]
  by_cases h : s.sleeps + 1 = 10 <;> simp [h]

theorem activePath_ok (eng : Engine) (s : HiffyState)
    (h : (eng s.invocations s.bufs).2 = Except.ok ()) :
    activePath eng s =
      { s with kick := (s.kick + (U32MOD - 1)) % U32MOD, sleep_ms := 1, sleeps := 0,
               bufs := (eng s.invocations s.bufs).1,
               invocations := s.invocations + 1,
               requests := (s.requests + 1) % U32MOD } := by
  rw [activePath]
  simp only [h]

theorem activePath_error (eng : Engine) (s : HiffyState) (f : Failure)
    (h : (eng s.invocations s.bufs).2 = Except.error f) :
    activePath eng s =
      { s with kick := (s.kick + (U32MOD - 1)) % U32MOD, sleep_ms := 1, sleeps := 0,
               bufs := (eng s.invocations s.bufs).1,
               invocations := s.invocations + 1,
               errors := (s.errors + 1) % U32MOD,
               failure := some f } := by
  rw [activePath]
  simp only [h]

theorem run_append (eng : Engine) (l1 l2 : List Nat) (s : HiffyState) :
    run eng (l1 ++ l2) s = run eng l2 (run eng l1 s) := by
  induction l1 generalizing s with
  | nil => rfl
  | cons a rest ih => simp [run, ih]

theorem idleN_zero (eng : Engine) : idleN eng 0 = idleStart := rfl

theorem idleN_succ (eng : Engine) (n : Nat) :
    idleN eng (n + 1) = step eng 0 (idleN eng n) := by
  have h : List.replicate (n + 1) (0 : Nat) = List.replicate n 0 ++ [0] :=
    List.replicate_succ' n 0
  rw [idleN, h, run_append]
  rfl

/-- Full characterization of an idle iteration. -/
theorem step_idle_spec (eng : Engine) (a : Nat) (s : HiffyState)
    (h : (s.kick + a) % U32MOD = 0) :
    step eng a s =
      { s with ready := ((s.ready + 1) % U32MOD + (U32MOD - 1)) % U32MOD,
               kick := (s.kick + a) % U32MOD,
               sleep_ms := if s.sleeps + 1 = 10 then min (s.sleep_ms * 10) 250 else s.sleep_ms,
               sleeps := if s.sleeps + 1 = 10 then 0 else s.sleeps + 1 } := by
  rw [step_eq_idle eng a s h, wake_fields, idlePath_fields]

/-- Full characterization of a successful active iteration. -/
theorem step_active_ok (eng : Engine) (a : Nat) (s : HiffyState)
    (h : (s.kick + a) % U32MOD ≠ 0)
    (he : (eng s.invocations s.bufs).2 = Except.ok ()) :
    step eng a s =
      { s with ready := ((s.ready + 1) % U32MOD + (U32MOD - 1)) % U32MOD,
               kick := ((s.kick + a) % U32MOD + (U32MOD - 1)) % U32MOD,
               sleep_ms := 1, sleeps := 0,
               bufs := (eng s.invocations s.bufs).1,
               invocations := s.invocations + 1,
               requests := (s.requests + 1) % U32MOD } := by
  rw [step_eq_active eng a s h, wake_fields]
  show activePath eng _ = _
  rw [activePath]
  simp only [he]

/-- Full characterization of a failing active iteration. -/
theorem step_active_error (eng : Engine) (a : Nat) (s : HiffyState) (f : Failure)
    (h : (s.kick + a) % U32MOD ≠ 0)
    (he : (eng s.invocations s.bufs).2 = Except.error f) :
    step eng a s =
      { s with ready := ((s.ready + 1) % U32MOD + (U32MOD - 1)) % U32MOD,
               kick := ((s.kick + a) % U32MOD + (U32MOD - 1)) % U32MOD,
               sleep_ms := 1, sleeps := 0,
               bufs := (eng s.invocations s.bufs).1,
               invocations := s.invocations + 1,
               errors := (s.errors + 1) % U32MOD,
               failure := some f } := by
  rw [step_eq_active eng a s h, wake_fields]
  show activePath eng _ = _
  rw [activePath]
  simp only [he]

/-- One iteration conserves `requests + errors + kick` up to the kicks that
arrived, as long as no 32-bit wrap occurs. -/
theorem step_sum (eng : Engine) (a : Nat) (s : HiffyState)
    (h : s.requests + s.errors + s.kick + a < U32MOD) :
    (step eng a s).requests + (step eng a s).errors + (step eng a s).kick
      = s.requests + s.errors + s.kick + a := by
  have hka : (s.kick + a) % U32MOD = s.kick + a := Nat.mod_eq_of_lt (by omega)
  by_cases hz : (s.kick + a) % U32MOD = 0
  · rw [step_idle_spec eng a s hz]
    simp only [hka] at hz ⊢
    omega
  · have hko : 0 < s.kick + a := by rw [hka] at hz; omega
    have hsub : ((s.kick + a) % U32MOD + (U32MOD - 1)) % U32MOD = s.kick + a - 1 := by
      rw [hka]; exact wrap_sub_one _ hko (by omega)
    rcases he : (eng s.invocations s.bufs).2 with f | u
    · rw [step_active_error eng a s f hz he]
      simp only [hsub]
      have : (s.errors + 1) % U32MOD = s.errors + 1 := Nat.mod_eq_of_lt (by omega)
      simp only [this]
      omega
    · cases u
      rw [step_active_ok eng a s hz he]
      simp only [hsub]
      have : (s.requests + 1) % U32MOD = s.requests + 1 := Nat.mod_eq_of_lt (by omega)
      simp only [this]
      omega

/-- Over a whole run, `requests + errors + kick` equals its initial value
plus the total number of kicks delivered, absent 32-bit wrap. -/
theorem run_sum (eng : Engine) (arrivals : List Nat) (s : HiffyState)
    (h : s.requests + s.errors + s.kick + arrivals.sum < U32MOD) :
    (run eng arrivals s).requests + (run eng arrivals s).errors
        + (run eng arrivals s).kick
      = s.requests + s.errors + s.kick + arrivals.sum := by
  induction arrivals generalizing s with
  | nil => simp [run]
  | cons a rest ih =>
    rw [run]
    have hsum : a + rest.sum = (a :: rest).sum := by simp
    have ha : s.requests + s.errors + s.kick + a < U32MOD := by
      simp [List.sum_cons] at h; omega
    have hs := step_sum eng a s ha
    rw [ih (step eng a s) (by rw [hs]; simp [List.sum_cons] at h ⊢; omega), hs]
    simp [List.sum_cons]
    omega

/-- A successful invocation (or an idle iteration) leaves the failure slot
and the error counter untouched. -/
theorem step_success_frame (eng : Engine) (a : Nat) (s : HiffyState)
    (hok : (eng s.invocations s.bufs).2 = Except.ok ()) :
    (step eng a s).failure = s.failure ∧ (step eng a s).errors = s.errors := by
  by_cases hz : (s.kick + a) % U32MOD = 0
  · rw [step_idle_spec eng a s hz]
    exact ⟨rfl, rfl⟩
  · rw [step_active_ok eng a s hz hok]
    exact ⟨rfl, rfl⟩

/-- A run against an engine that always succeeds leaves the failure slot and
the error counter untouched. -/
theorem run_success_frame (eng : Engine) (arrivals : List Nat) (s : HiffyState)
    (hok : ∀ n b, (eng n b).2 = Except.ok ()) :
    (run eng arrivals s).failure = s.failure ∧ (run eng arrivals s).errors = s.errors := by
  induction arrivals generalizing s with
  | nil => exact ⟨rfl, rfl⟩
  | cons a rest ih =>
    rw [run]
    obtain ⟨h1, h2⟩ := ih (step eng a s)
    obtain ⟨h3, h4⟩ := step_success_frame eng a s (hok _ _)
    exact ⟨h1.trans h3, h2.trans h4⟩

/-- Iterations in which no kicks are pending and none arrive touch neither
the counters, nor the failure slot, nor the buffers, nor the invocation
count, and leave the kick counter at zero. -/
theorem run_idle_frame (eng : Engine) (n : Nat) (s : HiffyState) (hk : s.kick = 0) :
    (run eng (List.replicate n 0) s).invocations = s.invocations ∧
    (run eng (List.replicate n 0) s).kick = 0 ∧
    (run eng (List.replicate n 0) s).failure = s.failure ∧
    (run eng (List.replicate n 0) s).errors = s.errors ∧
    (run eng (List.replicate n 0) s).requests = s.requests ∧
    (run eng (List.replicate n 0) s).bufs = s.bufs := by
  induction n generalizing s with
  | zero => exact ⟨rfl, hk, rfl, rfl, rfl, rfl⟩
  | succ n ih =>
    rw [List.replicate_succ, run]
    have hz : (s.kick + 0) % U32MOD = 0 := by
      rw [hk]; rfl
    have hstep := step_idle_spec eng 0 s hz
    have hk2 : (step eng 0 s).kick = 0 := by rw [hstep]; exact hz
    have p1 : (step eng 0 s).invocations = s.invocations := by rw [hstep]
    have p3 : (step eng 0 s).failure = s.failure := by rw [hstep]
    have p4 : (step eng 0 s).errors = s.errors := by rw [hstep]
    have p5 : (step eng 0 s).requests = s.requests := by rw [hstep]
    have p6 : (step eng 0 s).bufs = s.bufs := by rw [hstep]
    obtain ⟨i1, i2, i3, i4, i5, i6⟩ := ih (step eng 0 s) hk2
    exact ⟨i1.trans p1, i2, i3.trans p3, i4.trans p4, i5.trans p5, i6.trans p6⟩

/-- Arithmetic of the exponential backoff: one tenth-tick update applied to
the capped value. -/
theorem backoff_step (q : Nat) :
    min (min (10 ^ q) 250 * 10) 250 = min (10 ^ (q + 1)) 250 := by
  rcases le_or_lt (10 ^ q) 250 with h1 | h1
  · rw [Nat.min_eq_left h1, pow_succ]
  · have h2 : (250 : Nat) ≤ 10 ^ (q + 1) :=
      le_trans h1.le (Nat.pow_le_pow_right (by norm_num) (Nat.le_succ q))
    rw [Nat.min_eq_right h1.le, Nat.min_eq_right h2]
    norm_num

/-- Closed form of the idle backoff: after `n` fully idle iterations from
the post-kick state, the interval is `min (10 ^ (n / 10)) 250` and the
idle-tick counter is `n % 10`; the kick counter and ready flag stay zero. -/
theorem idleN_closed (eng : Engine) (n : Nat) :
    (idleN eng n).kick = 0 ∧ (idleN eng n).ready = 0 ∧
    (idleN eng n).sleep_ms = min (10 ^ (n / 10)) 250 ∧
    (idleN eng n).sleeps = n % 10 := by
  induction n with
  | zero => exact ⟨rfl, rfl, rfl, rfl⟩
  | succ n ih =>
    obtain ⟨hk, hr, hm, hs⟩ := ih
    have hz : ((idleN eng n).kick + 0) % U32MOD = 0 := by rw [hk]; rfl
    rw [idleN_succ, step_idle_spec eng 0 _ hz]
    refine ⟨hz, ?_, ?_, ?_⟩
    · show (((idleN eng n).ready + 1) % U32MOD + (U32MOD - 1)) % U32MOD = 0
      rw [hr]
      rfl
    · show (if (idleN eng n).sleeps + 1 = 10
          then min ((idleN eng n).sleep_ms * 10) 250
          else (idleN eng n).sleep_ms) = min (10 ^ ((n + 1) / 10)) 250
      rw [hs, hm]
      by_cases h9 : n % 10 + 1 = 10
      · have hq : (n + 1) / 10 = n / 10 + 1 := by omega
        simp only [h9, if_true, hq]
        exact backoff_step (n / 10)
      · have hq : (n + 1) / 10 = n / 10 := by omega
        simp only [h9, if_false, hq]
    · show (if (idleN eng n).sleeps + 1 = 10 then 0 else (idleN eng n).sleeps + 1)
          = (n + 1) % 10
      rw [hs]
      by_cases h9 : n % 10 + 1 = 10
      · simp only [h9, if_true]
        omega
      · simp only [h9, if_false]
        omega

end Hiffy

namespace SpMeasure

/-! ### Helper lemmas about `cmp` -/

theorem firstDiff_none_iff (a : List Nat) :
    ∀ b : List Nat, a.length = b.length → (firstDiff a b = none ↔ a = b) := by
  induction a with
  | nil =>
    intro b h
    cases b with
    | nil => simp [firstDiff]
    | cons yb ys => simp at h
  | cons xa xs ih =>
    intro b h
    cases b with
    | nil => simp at h
    | cons yb ys =>
      have hlen : xs.length = ys.length := by simpa using h
      rw [firstDiff]
      by_cases hxy : xa = yb
      · subst hxy
        simp only [ne_eq, not_true_eq_false, if_false, Option.map_eq_none']
        rw [ih ys hlen]
        simp
      · simp only [ne_eq, hxy, not_false_eq_true, if_true]
        simp [hxy]

theorem firstDiff_some_iff (a : List Nat) :
    ∀ (b : List Nat) (i x y : Nat), a.length = b.length →
      (firstDiff a b = some (i, x, y) ↔
        (a.get? i = some x ∧ b.get? i = some y ∧ x ≠ y ∧
         ∀ j, j < i → a.get? j = b.get? j)) := by
  induction a with
  | nil =>
    intro b i x y h
    cases b with
    | nil => simp [firstDiff]
    | cons yb ys => simp at h
  | cons xa xs ih =>
    intro b i x y h
    cases b with
    | nil => simp at h
    | cons yb ys =>
      have hlen : xs.length = ys.length := by simpa using h
      rw [firstDiff]
      by_cases hxy : xa = yb
      · subst hxy
        simp only [ne_eq, not_true_eq_false, if_false]
        cases i with
        | zero =>
          constructor
          · intro hmap
            rcases Option.map_eq_some'.mp hmap with ⟨p, _, hpe⟩
            exact absurd (congrArg Prod.fst hpe) (by simp)
          · rintro ⟨h1, h2, h3, -⟩
            simp only [List.get?_cons_zero, Option.some.injEq] at h1 h2
            exact absurd (h1.symm.trans h2) h3
        | succ i =>
          rw [Option.map_eq_some']
          constructor
          · rintro ⟨⟨p1, p2, p3⟩, hp, hpe⟩
            obtain ⟨e1, e2, e3⟩ : p1 + 1 = i + 1 ∧ p2 = x ∧ p3 = y := by
              refine ⟨congrArg Prod.fst hpe, ?_, ?_⟩
              · exact congrArg (fun q => q.2.1) hpe
              · exact congrArg (fun q => q.2.2) hpe
            have hp1 : p1 = i := by omega
            subst hp1; subst e2; subst e3
            obtain ⟨g1, g2, g3, g4⟩ := (ih ys p1 p2 p3 hlen).mp hp
            refine ⟨by simpa using g1, by simpa using g2, g3, ?_⟩
            intro j hj
            cases j with
            | zero => simp
            | succ j =>
              have := g4 j (by omega)
              simpa using this
          · rintro ⟨h1, h2, h3, h4⟩
            have h4s : ∀ j, j < i → xs.get? j = ys.get? j := by
              intro j hj
              have := h4 (j + 1) (by omega)
              simpa using this
            have := (ih ys i x y hlen).mpr
              ⟨by simpa using h1, by simpa using h2, h3, h4s⟩
            exact ⟨(i, x, y), this, rfl⟩
      · simp only [ne_eq, hxy, not_false_eq_true, if_true, Option.some.injEq]
        constructor
        · intro hs
          obtain ⟨e1, e2, e3⟩ : 0 = i ∧ xa = x ∧ yb = y := by
            refine ⟨congrArg Prod.fst hs, ?_, ?_⟩
            · exact congrArg (fun q => q.2.1) hs
            · exact congrArg (fun q => q.2.2) hs
          subst e2; subst e3
          refine ⟨?_, ?_, hxy, ?_⟩
          · rw [← e1]; simp
          · rw [← e1]; simp
          · intro j hj
            omega
        · rintro ⟨h1, h2, h3, h4⟩
          cases i with
          | zero =>
            simp only [List.get?_cons_zero, Option.some.injEq] at h1 h2
            subst h1; subst h2
            rfl
          | succ i =>
            have := h4 0 (by omega)
            simp only [List.get?_cons_zero, Option.some.injEq] at this
            exact absurd this hxy

theorem cmp_self (a : List Nat) : cmp a a = CmpOut.eq := by
  rw [cmp]
  simp only [ne_eq, not_true_eq_false, if_false]
  rw [(firstDiff_none_iff a a rfl).mpr rfl]

/-! ### Helper lemmas about the clean run of `sp_measure` -/

theorem startLoop_clean (d : Driver) (fuel : Nat) (s : MState)
    (h : d.startOk s.nStart = true) (hf : 1 ≤ fuel) :
    startLoop d fuel s = some { s with nStart := s.nStart + 1 } := by
  cases fuel with
  | zero => omega
  | succ n => simp [startLoop, callStart, h]

theorem readLoop_clean (d : Driver) (fuel : Nat) (s : MState) (c : List Nat)
    (h : d.readRes s.nRead = some c) (hf : 1 ≤ fuel) :
    readLoop d fuel s = some (c, { s with nRead := s.nRead + 1 }) := by
  cases fuel with
  | zero => omega
  | succ n => simp [readLoop, callRead, h]

theorem recoverLoop_clean (d : Driver) (fuel : Nat) (s : MState)
    (hsetup : d.setupOk s.nSetup = true) (hstart : d.startOk s.nStart = true)
    (hf : 1 ≤ fuel) :
    recoverLoop d fuel s
      = some { s with errCnt := s.errCnt + 1, nSetup := s.nSetup + 1,
                      nStart := s.nStart + 1 } := by
  cases fuel with
  | zero => omega
  | succ n => simp [recoverLoop, callSetup, callStart, hsetup, hstart]

theorem startLoop_until_success (d : Driver) :
    ∀ (k fuel : Nat) (s : MState),
      (∀ j, j < k → d.startOk (s.nStart + j) = false) →
      d.startOk (s.nStart + k) = true →
      k < fuel →
      startLoop d fuel s
        = some { s with errCnt := s.errCnt + k, nSetup := s.nSetup + k,
                        nStart := s.nStart + k + 1 } := by
  intro k
  induction k with
  | zero =>
    intro fuel s hfail hsucc hf
    rw [startLoop_clean d fuel s (by simpa using hsucc) (by omega)]
    simp
  | succ k ih =>
    intro fuel s hfail hsucc hf
    cases fuel with
    | zero => omega
    | succ f =>
      rw [startLoop]
      have h0 : d.startOk s.nStart = false := by simpa using hfail 0 (by omega)
      simp only [callStart, callSetup, h0, Bool.false_eq_true, if_false]
      rw [ih f { s with errCnt := s.errCnt + 1, nSetup := s.nSetup + 1,
                        nStart := s.nStart + 1 }
          ?_ ?_ (by omega)]
      · simp only [Option.some.injEq, MState.mk.injEq]
        refine ⟨by omega, by omega, by omega, trivial, trivial⟩
      · intro j hj
        have h2 := hfail (j + 1) (by omega)
        have e : s.nStart + (j + 1) = s.nStart + 1 + j := by omega
        rw [e] at h2
        exact h2
      · have e : s.nStart + (k + 1) = s.nStart + 1 + k := by omega
        rw [e] at hsucc
        exact hsucc

theorem readLoop_until_success (d : Driver)
    (hsetup : ∀ n, d.setupOk n = true) (hstart : ∀ n, d.startOk n = true) :
    ∀ (k fuel : Nat) (s : MState) (c : List Nat),
      (∀ j, j < k → d.readRes (s.nRead + j) = none) →
      d.readRes (s.nRead + k) = some c →
      k < fuel →
      readLoop d fuel s
        = some (c, { s with errCnt := s.errCnt + k, nSetup := s.nSetup + k,
                            nStart := s.nStart + k, nRead := s.nRead + k + 1 }) := by
  intro k
  induction k with
  | zero =>
    intro fuel s c hfail hsucc hf
    rw [readLoop_clean d fuel s c (by simpa using hsucc) (by omega)]
    simp
  | succ k ih =>
    intro fuel s c hfail hsucc hf
    cases fuel with
    | zero => omega
    | succ f =>
      rw [readLoop]
      have h0 : d.readRes s.nRead = none := by simpa using hfail 0 (by omega)
      simp only [callRead, h0]
      rw [recoverLoop_clean d f { s with nRead := s.nRead + 1 }
          (hsetup _) (hstart _) (by omega)]
      show readLoop d f { s with errCnt := s.errCnt + 1, nSetup := s.nSetup + 1,
                                 nStart := s.nStart + 1, nRead := s.nRead + 1 } = _
      rw [ih f { s with errCnt := s.errCnt + 1, nSetup := s.nSetup + 1,
                        nStart := s.nStart + 1, nRead := s.nRead + 1 } c
          ?_ ?_ (by omega)]
      · simp only [Option.some.injEq, Prod.mk.injEq, MState.mk.injEq]
        refine ⟨trivial, by omega, by omega, by omega, by omega, trivial⟩
      · intro j hj
        have h2 := hfail (j + 1) (by omega)
        have e : s.nRead + (j + 1) = s.nRead + 1 + j := by omega
        rw [e] at h2
        exact h2
      · have e : s.nRead + (k + 1) = s.nRead + 1 + k := by omega
        rw [e] at hsucc
        exact hsucc

theorem readIx_const_zero : ∀ i : Nat, readIx (fun _ => 0) i = i := by
  intro i
  induction i with
  | zero => rfl
  | succ i ih => simp [readIx, ih]

theorem chunksGo_eventually (d : Driver) (expected : Nat → Nat) (fuel : Nat)
    (fails : Nat → Nat)
    (hsetup : ∀ n, d.setupOk n = true)
    (hstart : ∀ n, d.startOk n = true)
    (hfailed : ∀ i j, j < fails i → d.readRes (readIx fails i + j) = none)
    (hread : ∀ i, d.readRes (readIx fails i + fails i) = some (chunkAt expected i))
    (hfuel : ∀ i, fails i < fuel) :
    ∀ (n i : Nat) (s : MState), s.nRead = readIx fails i →
      chunksGo d expected fuel n i s
        = MOut.done (s.hashed ++ regionChunks expected i n)
            (s.errCnt + totalFails fails i n) := by
  intro n
  induction n with
  | zero =>
    intro i s hi
    simp [chunksGo, regionChunks, totalFails]
  | succ n ih =>
    intro i s hi
    rw [chunksGo]
    have hf1 : 1 ≤ fuel := by have := hfuel 0; omega
    have hbytes : ∀ t : MState, t.nRead = readIx fails i →
        readLoop d fuel t
          = some (chunkAt expected i,
              { t with errCnt := t.errCnt + fails i, nSetup := t.nSetup + fails i,
                       nStart := t.nStart + fails i, nRead := t.nRead + fails i + 1 }) := by
      intro t ht
      refine readLoop_until_success d hsetup hstart (fails i) fuel t _ ?_ ?_ (hfuel i)
      · intro j hj
        rw [ht]
        exact hfailed i j hj
      · rw [ht]
        exact hread i
    by_cases haddr : (FLASH_START + i * READ_SIZE) % TRANSACTION_SIZE = 0
    · rw [if_pos haddr, startLoop_clean d fuel s (hstart _) hf1]
      show (match readLoop d fuel { s with nStart := s.nStart + 1 } with
        | none => MOut.fuelOut
        | some (bytes, s2) =>
            match cmp bytes (chunkAt expected i) with
            | CmpOut.eq =>
                chunksGo d expected fuel n (i + 1) { s2 with hashed := s2.hashed ++ bytes }
            | _ => MOut.hangs s2.errCnt) = _
      rw [hbytes { s with nStart := s.nStart + 1 } hi]
      simp only [cmp_self]
      rw [ih (i + 1) _ (by simp [hi, readIx])]
      simp [regionChunks, totalFails, List.append_assoc, Nat.add_assoc]
    · rw [if_neg haddr]
      show (match readLoop d fuel s with
        | none => MOut.fuelOut
        | some (bytes, s2) =>
            match cmp bytes (chunkAt expected i) with
            | CmpOut.eq =>
                chunksGo d expected fuel n (i + 1) { s2 with hashed := s2.hashed ++ bytes }
            | _ => MOut.hangs s2.errCnt) = _
      rw [hbytes s hi]
      simp only [cmp_self]
      rw [ih (i + 1) _ (by simp [hi, readIx])]
      simp [regionChunks, totalFails, List.append_assoc, Nat.add_assoc]

theorem measureOnce_eventually (d : Driver) (expected : Nat → Nat) (fuel e0 : Nat)
    (fails : Nat → Nat)
    (hsetup : ∀ n, d.setupOk n = true)
    (hstart : ∀ n, d.startOk n = true)
    (hfailed : ∀ i j, j < fails i → d.readRes (readIx fails i + j) = none)
    (hread : ∀ i, d.readRes (readIx fails i + fails i) = some (chunkAt expected i))
    (hfuel : ∀ i, fails i < fuel) :
    measureOnce d expected fuel e0
      = MOut.done (regionChunks expected 0 (TEST_SIZE / READ_SIZE))
          (e0 + totalFails fails 0 (TEST_SIZE / READ_SIZE)) := by
  rw [measureOnce]
  simp only [callSetup, hsetup 0, if_true]
  rw [chunksGo_eventually d expected fuel fails hsetup hstart hfailed hread hfuel
      (TEST_SIZE / READ_SIZE) 0 _ rfl]
  simp

end SpMeasure

/-! ## Claim theorems -/

/-- C1: for every execution of the main loop that fully processes a sequence
of K kicks (starting from counters at zero), the sum of `HIFFY_REQUESTS` and
`HIFFY_ERRORS` equals K: each processed kick increments exactly one of the
two counters by exactly 1.  (K below the 32-bit wrap, as the claim's exact
sum requires.) -/
theorem hiffy_kick_conservation (eng : Hiffy.Engine) (arrivals : List Nat) (K : Nat)
    (hK : arrivals.sum = K) (hlt : K < Hiffy.U32MOD)
    (hdone : (Hiffy.run eng arrivals Hiffy.initState).kick = 0) :
    (Hiffy.run eng arrivals Hiffy.initState).requests
      + (Hiffy.run eng arrivals Hiffy.initState).errors = K := by
  have hside : Hiffy.initState.requests + Hiffy.initState.errors + Hiffy.initState.kick
      + arrivals.sum < Hiffy.U32MOD := by
    show 0 + 0 + 0 + arrivals.sum < Hiffy.U32MOD
    rw [hK]
    omega
  have h := Hiffy.run_sum eng arrivals Hiffy.initState hside
  rw [hdone, hK] at h
  have e0 : Hiffy.initState.requests + Hiffy.initState.errors + Hiffy.initState.kick
      = 0 := rfl
  rw [e0] at h
  omega

/-- Witness for C1: two kicks processed against an always-succeeding engine,
`requests + errors = 2`. -/
theorem hiffy_kick_conservation_witness :
    ([1, 1, 0] : List Nat).sum = 2 ∧ 2 < Hiffy.U32MOD
    ∧ (Hiffy.run Hiffy.engOk [1, 1, 0] Hiffy.initState).kick = 0
    ∧ (Hiffy.run Hiffy.engOk [1, 1, 0] Hiffy.initState).requests
        + (Hiffy.run Hiffy.engOk [1, 1, 0] Hiffy.initState).errors = 2 :=
  ⟨by decide, by decide, by decide,
   hiffy_kick_conservation Hiffy.engOk [1, 1, 0] 2 (by decide) (by decide) (by decide)⟩

/-- C2: `HIFFY_FAILURE` is written only on a failing invocation, where it is
overwritten with that invocation's failure descriptor; a successful
invocation (and an idle iteration) leaves the slot and the error counter
unchanged, so after a failure followed by any number of successes the slot
still holds the most recent failure's descriptor. -/
theorem hiffy_failure_slot (eng : Hiffy.Engine) (arrivals : List Nat) (a : Nat)
    (s t : Hiffy.HiffyState) (f g : Hiffy.Failure) :
    ((s.kick + a) % Hiffy.U32MOD ≠ 0 →
        (eng s.invocations s.bufs).2 = Except.error f →
        (Hiffy.step eng a s).failure = some f
          ∧ (Hiffy.step eng a s).errors = (s.errors + 1) % Hiffy.U32MOD)
    ∧ ((eng s.invocations s.bufs).2 = Except.ok () →
        (Hiffy.step eng a s).failure = s.failure
          ∧ (Hiffy.step eng a s).errors = s.errors)
    ∧ ((s.kick + a) % Hiffy.U32MOD = 0 →
        (Hiffy.step eng a s).failure = s.failure
          ∧ (Hiffy.step eng a s).errors = s.errors)
    ∧ (t.failure = some g → (∀ n b, (eng n b).2 = Except.ok ()) →
        (Hiffy.run eng arrivals t).failure = some g) := by
  refine ⟨?_, ?_, ?_, ?_⟩
  · intro h he
    rw [Hiffy.step_active_error eng a s f h he]
    exact ⟨rfl, rfl⟩
  · intro he
    exact Hiffy.step_success_frame eng a s he
  · intro h
    rw [Hiffy.step_idle_spec eng a s h]
    exact ⟨rfl, rfl⟩
  · intro hf hok
    rw [(Hiffy.run_success_frame eng arrivals t hok).1, hf]

/-- Witness for C2: a failing invocation stores descriptor 42; a later
all-success run of three iterations (one of them processing a kick) leaves
the slot holding 42. -/
theorem hiffy_failure_slot_witness :
    (Hiffy.step Hiffy.engErr 1 Hiffy.initState).failure = some 42
    ∧ (Hiffy.step Hiffy.engOk 0
        { Hiffy.initState with failure := some 42 }).failure = some 42
    ∧ (Hiffy.run Hiffy.engOk [0, 1, 0]
        { Hiffy.initState with failure := some 42 }).failure = some 42 :=
  ⟨((hiffy_failure_slot Hiffy.engErr [] 1 Hiffy.initState Hiffy.initState 42 42).1
      (by decide) rfl).1,
   ((hiffy_failure_slot Hiffy.engOk [] 0 { Hiffy.initState with failure := some 42 }
      Hiffy.initState 42 42).2.1 rfl).1,
   (hiffy_failure_slot Hiffy.engOk [0, 1, 0] 0 Hiffy.initState
      { Hiffy.initState with failure := some 42 } 42 42).2.2.2 rfl (fun _ _ => rfl)⟩

/-- C3: whenever the kick counter is observed nonzero on wake, the scheduler
decrements it by exactly 1, sets the sleep interval to 1ms regardless of the
prior backoff state, resets the consecutive-idle-tick counter to 0, and runs
exactly one invocation. -/
theorem hiffy_kick_decrement (eng : Hiffy.Engine) (a : Nat) (s : Hiffy.HiffyState)
    (hw : s.kick + a < Hiffy.U32MOD) (hk : s.kick + a ≠ 0) :
    (Hiffy.step eng a s).kick = s.kick + a - 1
    ∧ (Hiffy.step eng a s).sleep_ms = 1
    ∧ (Hiffy.step eng a s).sleeps = 0
    ∧ (Hiffy.step eng a s).invocations = s.invocations + 1 := by
  have hka : (s.kick + a) % Hiffy.U32MOD = s.kick + a := Nat.mod_eq_of_lt hw
  have hz : (s.kick + a) % Hiffy.U32MOD ≠ 0 := by rw [hka]; exact hk
  have hsub : ((s.kick + a) % Hiffy.U32MOD + (Hiffy.U32MOD - 1)) % Hiffy.U32MOD
      = s.kick + a - 1 := by
    rw [hka]; exact Hiffy.wrap_sub_one _ (Nat.pos_of_ne_zero hk) hw
  rcases he : (eng s.invocations s.bufs).2 with f | u
  · rw [Hiffy.step_active_error eng a s f hz he]
    exact ⟨hsub, rfl, rfl, rfl⟩
  · cases u
    rw [Hiffy.step_active_ok eng a s hz he]
    exact ⟨hsub, rfl, rfl, rfl⟩

/-- Witness for C3: from the initial 250ms backoff state with 7 idle ticks
accumulated and one kick arriving, the step leaves kick 0, interval 1ms,
idle ticks 0, and one invocation run. -/
theorem hiffy_kick_decrement_witness :
    (Hiffy.step Hiffy.engOk 1 { Hiffy.initState with sleeps := 7 }).kick = 0
    ∧ (Hiffy.step Hiffy.engOk 1 { Hiffy.initState with sleeps := 7 }).sleep_ms = 1
    ∧ (Hiffy.step Hiffy.engOk 1 { Hiffy.initState with sleeps := 7 }).sleeps = 0
    ∧ (Hiffy.step Hiffy.engOk 1 { Hiffy.initState with sleeps := 7 }).invocations = 1 :=
  hiffy_kick_decrement Hiffy.engOk 1 { Hiffy.initState with sleeps := 7 }
    (by decide) (by decide)

/-- C4: while no kicks arrive, each idle wake increments the idle-tick
counter, and on every 10th consecutive idle tick the sleep interval becomes
`min(interval * 10, 250)` and the counter resets; consequently from the
post-kick state the idle interval after `n` idle iterations is
`min (10 ^ (n / 10)) 250` — the sequence 1 → 10 → 100 → 250, staying at
250 thereafter. -/
theorem hiffy_idle_backoff (eng : Hiffy.Engine) (n : Nat) (s : Hiffy.HiffyState)
    (hk : s.kick = 0) :
    ((Hiffy.step eng 0 s).sleeps = (if s.sleeps + 1 = 10 then 0 else s.sleeps + 1)
      ∧ (Hiffy.step eng 0 s).sleep_ms
          = (if s.sleeps + 1 = 10 then min (s.sleep_ms * 10) 250 else s.sleep_ms))
    ∧ ((Hiffy.idleN eng n).sleep_ms = min (10 ^ (n / 10)) 250
      ∧ (Hiffy.idleN eng n).sleeps = n % 10) := by
  have hz : (s.kick + 0) % Hiffy.U32MOD = 0 := by rw [hk]; rfl
  obtain ⟨-, -, h3, h4⟩ := Hiffy.idleN_closed eng n
  refine ⟨?_, h3, h4⟩
  rw [Hiffy.step_idle_spec eng 0 s hz]
  exact ⟨rfl, rfl⟩

/-- Witness for C4: after 30 fully idle iterations from the post-kick state
the interval has backed off 1 → 10 → 100 → 250. -/
theorem hiffy_idle_backoff_witness :
    ((Hiffy.step Hiffy.engOk 0 Hiffy.initState).sleeps = 1
      ∧ (Hiffy.step Hiffy.engOk 0 Hiffy.initState).sleep_ms = 250)
    ∧ ((Hiffy.idleN Hiffy.engOk 30).sleep_ms = 250
      ∧ (Hiffy.idleN Hiffy.engOk 30).sleeps = 0) := by
  have h := hiffy_idle_backoff Hiffy.engOk 30 Hiffy.initState rfl
  simpa using h

/-- C5 counterexample: the buffers are NOT reinitialized between
invocations.  With an engine that leaves a mark in the operand stack, after
one invocation the task's stored buffers — exactly the ones handed to the
next invocation — differ from the freshly initialized buffers and equal
whatever the engine left behind. -/
theorem hiffy_buffers_reinit_ce :
    (Hiffy.step Hiffy.engMark 1 Hiffy.initState).invocations = 1
    ∧ (Hiffy.step Hiffy.engMark 1 Hiffy.initState).bufs ≠ Hiffy.initBuffers
    ∧ (Hiffy.step Hiffy.engMark 1 Hiffy.initState).bufs
        = (Hiffy.engMark 0 Hiffy.initBuffers).1 := by
  refine ⟨by decide, ?_, rfl⟩
  intro h
  have := congrArg (fun b => b.stack.head?) h
  simp [Hiffy.engMark, Hiffy.initBuffers, Hiffy.initState,
    Hiffy.step, Hiffy.markReady, Hiffy.hostKicks, Hiffy.unmarkReady,
    Hiffy.activePath, Hiffy.U32MOD, List.replicate] at this

/-- C5 amended: the operand stack, return-stack buffer and scratch buffer
are initialized once, before the main loop; an active iteration stores back
exactly the buffers the engine left, and an idle iteration leaves them
untouched, so each invocation sees the previous invocation's final buffer
state, not a fresh one. -/
theorem hiffy_buffers_once (eng : Hiffy.Engine) (a : Nat) (s : Hiffy.HiffyState) :
    Hiffy.initState.bufs = Hiffy.initBuffers
    ∧ ((s.kick + a) % Hiffy.U32MOD ≠ 0 →
        (Hiffy.step eng a s).bufs = (eng s.invocations s.bufs).1)
    ∧ ((s.kick + a) % Hiffy.U32MOD = 0 → (Hiffy.step eng a s).bufs = s.bufs) := by
  refine ⟨rfl, ?_, ?_⟩
  · intro h
    rcases he : (eng s.invocations s.bufs).2 with f | u
    · rw [Hiffy.step_active_error eng a s f h he]
    · cases u
      rw [Hiffy.step_active_ok eng a s h he]
  · intro h
    rw [Hiffy.step_idle_spec eng a s h]

/-- Witness for C5's amended claim: one marking invocation, then the stored
buffers are the engine's output; an idle iteration preserves them. -/
theorem hiffy_buffers_once_witness :
    (Hiffy.step Hiffy.engMark 1 Hiffy.initState).bufs
        = (Hiffy.engMark 0 Hiffy.initBuffers).1
    ∧ (Hiffy.step Hiffy.engMark 0 Hiffy.initState).bufs = Hiffy.initState.bufs :=
  ⟨(hiffy_buffers_once Hiffy.engMark 1 Hiffy.initState).2.1 (by decide),
   (hiffy_buffers_once Hiffy.engMark 0 Hiffy.initState).2.2 (by decide)⟩

/-- C6 counterexample: the ready flag is marked and the task suspends at the
top of EVERY iteration, not only when the kick counter is 0.  In an
iteration starting with one pending kick, the ready flag still reads 1
(marked) during the sleep — and that same iteration then processes the
kick. -/
theorem hiffy_ready_gating_ce :
    ({ Hiffy.initState with kick := 1 } : Hiffy.HiffyState).kick ≠ 0
    ∧ Hiffy.readyDuringSleep { Hiffy.initState with kick := 1 } = 1
    ∧ ({ Hiffy.initState with kick := 1 } : Hiffy.HiffyState).ready = 0
    ∧ (Hiffy.step Hiffy.engOk 0 { Hiffy.initState with kick := 1 }).invocations = 1 := by
  decide

/-- C6 amended: every iteration — whatever the kick counter holds — marks
the ready flag (prior value + 1, hence nonzero when the prior value was the
reachable 0) for the duration of the sleep and unmarks it after waking; the
flag nets to its prior value after the full iteration, and no other part of
the iteration touches it. -/
theorem hiffy_ready_netting (eng : Hiffy.Engine) (a : Nat) (s : Hiffy.HiffyState)
    (hr : s.ready < Hiffy.U32MOD) :
    Hiffy.readyDuringSleep s = (s.ready + 1) % Hiffy.U32MOD
    ∧ (s.ready = 0 → Hiffy.readyDuringSleep s ≠ 0)
    ∧ (Hiffy.step eng a s).ready = s.ready := by
  refine ⟨rfl, ?_, ?_⟩
  · intro h0
    show (Hiffy.markReady s).ready ≠ 0
    simp [Hiffy.markReady, h0, Hiffy.U32MOD]
  · by_cases hz : (s.kick + a) % Hiffy.U32MOD = 0
    · rw [Hiffy.step_idle_spec eng a s hz]
      exact Hiffy.ready_net s.ready hr
    · rcases he : (eng s.invocations s.bufs).2 with f | u
      · rw [Hiffy.step_active_error eng a s f hz he]
        exact Hiffy.ready_net s.ready hr
      · cases u
        rw [Hiffy.step_active_ok eng a s hz he]
        exact Hiffy.ready_net s.ready hr

/-- Witness for C6's amended claim: from the initial state, ready is 1
during the sleep and back to 0 after a full iteration. -/
theorem hiffy_ready_netting_witness :
    Hiffy.readyDuringSleep Hiffy.initState = 1
    ∧ Hiffy.readyDuringSleep Hiffy.initState ≠ 0
    ∧ (Hiffy.step Hiffy.engOk 1 Hiffy.initState).ready = 0 := by
  have h := hiffy_ready_netting Hiffy.engOk 1 Hiffy.initState (by decide)
  exact ⟨by decide, h.2.1 rfl, h.2.2⟩

/-- C7: each processed kick runs the engine exactly once (the invocation
count rises by exactly 1, and not at all on idle iterations); a failing
invocation is recorded — error counter incremented, failure slot set — and
with no further kicks pending the loop idles without re-running the failed
program (no further invocations). -/
theorem hiffy_single_attempt (eng : Hiffy.Engine) (a n : Nat)
    (s s2 : Hiffy.HiffyState) (f : Hiffy.Failure) :
    ((s.kick + a) % Hiffy.U32MOD ≠ 0 →
        (Hiffy.step eng a s).invocations = s.invocations + 1
        ∧ ((eng s.invocations s.bufs).2 = Except.error f →
            (Hiffy.step eng a s).errors = (s.errors + 1) % Hiffy.U32MOD
            ∧ (Hiffy.step eng a s).failure = some f))
    ∧ ((s.kick + a) % Hiffy.U32MOD = 0 →
        (Hiffy.step eng a s).invocations = s.invocations)
    ∧ (s2.kick = 0 →
        (Hiffy.run eng (List.replicate n 0) s2).invocations = s2.invocations) := by
  refine ⟨?_, ?_, ?_⟩
  · intro h
    constructor
    · rcases he : (eng s.invocations s.bufs).2 with f2 | u
      · rw [Hiffy.step_active_error eng a s f2 h he]
      · cases u
        rw [Hiffy.step_active_ok eng a s h he]
    · intro he
      rw [Hiffy.step_active_error eng a s f h he]
      exact ⟨rfl, rfl⟩
  · intro h
    rw [Hiffy.step_idle_spec eng a s h]
  · intro hk2
    exact (Hiffy.run_idle_frame eng n s2 hk2).1

/-- Witness for C7: one failing kick runs the engine once and records the
failure; ten subsequent idle iterations run no further invocations. -/
theorem hiffy_single_attempt_witness :
    (Hiffy.step Hiffy.engErr 1 Hiffy.initState).invocations = 1
    ∧ (Hiffy.step Hiffy.engErr 1 Hiffy.initState).errors = 1 % Hiffy.U32MOD
    ∧ (Hiffy.step Hiffy.engErr 1 Hiffy.initState).failure = some 42
    ∧ (Hiffy.run Hiffy.engErr (List.replicate 10 0) Hiffy.initState).invocations = 0 := by
  have h := hiffy_single_attempt Hiffy.engErr 1 10 Hiffy.initState Hiffy.initState 42
  obtain ⟨h1, h2⟩ := h.1 (by decide)
  obtain ⟨h3, h4⟩ := h2 rfl
  exact ⟨h1, h3, h4, h.2.2 rfl⟩

/-- C8: the per-step trace hook passed to the engine is observation-only:
for every (offset, op) input it returns `Ok(())`, so it can never abort or
alter execution by returning a failure. -/
theorem hiffy_trace_hook_ok (offset : Nat) (op : Hiffy.Op) :
    (Hiffy.check offset op).2 = Except.ok () := rfl

/-- C9 counterexample: a failure of the initial `setup()` is NOT retried
until success: the task reaches the bare `loop {}` at main.rs line 61 and
hangs forever, with no retry and no error-count increment. -/
theorem sp_measure_setup_hang_ce :
    SpMeasure.measureOnce SpMeasure.badSetupDriver (fun _ => 0) 1 0
      = SpMeasure.MOut.hangs 0 := rfl

/-- C9 amended: read and read-transaction-start errors inside the region
loop are retried — incrementing the error count — until they succeed (a
start error costs one increment per retry, a read error one increment per
recovery pass), but a failure of the initial `setup()` halts the task
forever without retry or error-count increment, and a verification mismatch
likewise halts permanently; whenever the initial setup succeeds and each
chunk's read eventually succeeds with the expected bytes (after any finite
number of failures within the modelling fuel), the task completes the hash
of the full flash region, with the error count grown by exactly the total
number of read failures. -/
theorem sp_measure_region_hash (d : SpMeasure.Driver) (expected : Nat → Nat)
    (fuel e0 : Nat) (fails : Nat → Nat)
    (hsetup : ∀ n, d.setupOk n = true)
    (hstart : ∀ n, d.startOk n = true)
    (hfailed : ∀ i j, j < fails i → d.readRes (SpMeasure.readIx fails i + j) = none)
    (hread : ∀ i, d.readRes (SpMeasure.readIx fails i + fails i)
        = some (SpMeasure.chunkAt expected i))
    (hfuel : ∀ i, fails i < fuel) :
    SpMeasure.measureOnce d expected fuel e0
      = SpMeasure.MOut.done
          (SpMeasure.regionChunks expected 0 (SpMeasure.TEST_SIZE / SpMeasure.READ_SIZE))
          (e0 + SpMeasure.totalFails fails 0 (SpMeasure.TEST_SIZE / SpMeasure.READ_SIZE))
    ∧ (∀ (d2 : SpMeasure.Driver) (k f2 : Nat) (s : SpMeasure.MState),
        (∀ j, j < k → d2.startOk (s.nStart + j) = false) →
        d2.startOk (s.nStart + k) = true → k < f2 →
        SpMeasure.startLoop d2 f2 s
          = some { s with errCnt := s.errCnt + k, nSetup := s.nSetup + k,
                          nStart := s.nStart + k + 1 })
    ∧ (∀ (d2 : SpMeasure.Driver) (k f2 : Nat) (s : SpMeasure.MState) (c : List Nat),
        (∀ n, d2.setupOk n = true) → (∀ n, d2.startOk n = true) →
        (∀ j, j < k → d2.readRes (s.nRead + j) = none) →
        d2.readRes (s.nRead + k) = some c → k < f2 →
        SpMeasure.readLoop d2 f2 s
          = some (c, { s with errCnt := s.errCnt + k, nSetup := s.nSetup + k,
                              nStart := s.nStart + k, nRead := s.nRead + k + 1 })) :=
  ⟨SpMeasure.measureOnce_eventually d expected fuel e0 fails
      hsetup hstart hfailed hread hfuel,
   fun d2 k f2 s hfail hsucc hf =>
     SpMeasure.startLoop_until_success d2 k f2 s hfail hsucc hf,
   fun d2 k f2 s c hsetup2 hstart2 hfail hsucc hf =>
     SpMeasure.readLoop_until_success d2 hsetup2 hstart2 k f2 s c hfail hsucc hf⟩

/-- Witness for C9's amended claim: a clean driver completes the hash of the
whole region with the error count unchanged; a driver whose first
transaction start fails is retried to success with the error count rising by
1; a driver whose first read fails is recovered and retried to success, also
raising the error count by 1. -/
theorem sp_measure_region_hash_witness :
    SpMeasure.measureOnce (SpMeasure.cleanDriver (fun _ => 0)) (fun _ => 0) 1 0
      = SpMeasure.MOut.done
          (SpMeasure.regionChunks (fun _ => 0) 0
            (SpMeasure.TEST_SIZE / SpMeasure.READ_SIZE))
          (0 + SpMeasure.totalFails (fun _ => 0) 0
            (SpMeasure.TEST_SIZE / SpMeasure.READ_SIZE))
    ∧ SpMeasure.startLoop SpMeasure.flakyStartDriver 2 SpMeasure.mInit
        = some { SpMeasure.mInit with errCnt := 1, nSetup := 1, nStart := 2 }
    ∧ SpMeasure.readLoop SpMeasure.flakyReadDriver 2 SpMeasure.mInit
        = some ([1, 2],
            { SpMeasure.mInit with
              errCnt := 1, nSetup := 1, nStart := 1, nRead := 2 }) := by
  have h := sp_measure_region_hash (SpMeasure.cleanDriver (fun _ => 0)) (fun _ => 0) 1 0
    (fun _ => 0) (fun _ => rfl) (fun _ => rfl)
    (fun i j hj => absurd hj (Nat.not_lt_zero j))
    (fun i => by simp [SpMeasure.readIx_const_zero, SpMeasure.cleanDriver])
    (fun i => by show 0 < 1; omega)
  refine ⟨h.1, ?_, ?_⟩
  · have h2 := h.2.1 SpMeasure.flakyStartDriver 1 2 SpMeasure.mInit
      (by intro j hj; have hj0 : j = 0 := (by omega); subst hj0; decide)
      (by decide) (by decide)
    exact h2
  · have h3 := h.2.2 SpMeasure.flakyReadDriver 1 2 SpMeasure.mInit [1, 2]
      (fun _ => rfl) (fun _ => rfl)
      (by intro j hj; have hj0 : j = 0 := (by omega); subst hj0; decide)
      (by decide) (by decide)
    exact h3

/-- C10: for equal-length byte slices, `cmp` returns `Some((i, a[i], b[i]))`
for the smallest index `i` where the slices differ and `None` exactly when
they are equal; for slices of unequal length it never returns (modelled by
the explicit `hangs` outcome standing for the `loop {}` at main.rs line
41). -/
theorem sp_measure_cmp_spec (a b : List Nat) :
    (a.length ≠ b.length → SpMeasure.cmp a b = SpMeasure.CmpOut.hangs)
    ∧ (a.length = b.length →
        ((SpMeasure.cmp a b = SpMeasure.CmpOut.eq ↔ a = b)
         ∧ ∀ i x y, (SpMeasure.cmp a b = SpMeasure.CmpOut.found i x y ↔
             (a.get? i = some x ∧ b.get? i = some y ∧ x ≠ y
              ∧ ∀ j, j < i → a.get? j = b.get? j)))) := by
  constructor
  · intro h
    rw [SpMeasure.cmp, if_pos h]
  · intro h
    rw [SpMeasure.cmp, if_neg (not_ne_iff.mpr h)]
    cases hfd : SpMeasure.firstDiff a b with
    | none =>
      constructor
      · exact iff_of_true rfl ((SpMeasure.firstDiff_none_iff a b h).mp hfd)
      · intro i x y
        constructor
        · intro hbad
          exact absurd hbad (by simp)
        · intro hrhs
          have := (SpMeasure.firstDiff_some_iff a b i x y h).mpr hrhs
          rw [hfd] at this
          exact absurd this (by simp)
    | some p =>
      have hne : a ≠ b := by
        intro hab
        rw [hab, (SpMeasure.firstDiff_none_iff b b rfl).mpr rfl] at hfd
        exact absurd hfd (by simp)
      constructor
      · exact iff_of_false (by simp) hne
      · intro i x y
        constructor
        · intro hfound
          obtain ⟨e1, e2, e3⟩ : p.1 = i ∧ p.2.1 = x ∧ p.2.2 = y := by
            refine ⟨?_, ?_, ?_⟩
            · have := congrArg (fun c => match c with
                | SpMeasure.CmpOut.found i _ _ => i
                | _ => 0) hfound
              simpa using this
            · have := congrArg (fun c => match c with
                | SpMeasure.CmpOut.found _ x _ => x
                | _ => 0) hfound
              simpa using this
            · have := congrArg (fun c => match c with
                | SpMeasure.CmpOut.found _ _ y => y
                | _ => 0) hfound
              simpa using this
          refine (SpMeasure.firstDiff_some_iff a b i x y h).mp ?_
          rw [hfd, ← e1, ← e2, ← e3]
        · intro hrhs
          have := (SpMeasure.firstDiff_some_iff a b i x y h).mpr hrhs
          rw [hfd] at this
          have hp : p = (i, x, y) := Option.some.inj this
          subst hp
          rfl

/-- Witness for C10: unequal lengths hang; the first difference of
`[5, 6, 7]` and `[5, 9, 7]` is reported at index 1 with the two bytes. -/
theorem sp_measure_cmp_spec_witness :
    SpMeasure.cmp [1, 2] [1] = SpMeasure.CmpOut.hangs
    ∧ SpMeasure.cmp [5, 6, 7] [5, 9, 7] = SpMeasure.CmpOut.found 1 6 9 :=
  ⟨(sp_measure_cmp_spec [1, 2] [1]).1 (by decide),
   (((sp_measure_cmp_spec [5, 6, 7] [5, 9, 7]).2 (by decide)).2 1 6 9).mpr
     (by
       refine ⟨by decide, by decide, by decide, ?_⟩
       intro j hj
       have hj0 : j = 0 := by omega
       subst hj0
       decide)⟩
